import Mathlib

/-!
Verification of the Ultimate-TTS core: a shallow embedding of the layout
reconstruction engine (src/utils/layoutEngine.ts), the timeline-clock
scheduling arithmetic and playback loop of the application component
(readLoop, stopPlayback), and the narrative clean-up fallback of the
generative service (processRawLayout).

Numbers are modelled by the rationals (the source works with JS doubles;
all the claims are about the exact arithmetic the code writes down), and
JS strings by lists of characters where character-level reasoning is
needed.  JS Array.prototype.sort with a consistent comparator is a stable
sort, whose output is uniquely determined; it is modelled by insertion
sort on the reflexive total preorder the comparator describes.
-/

namespace UltimateTTS

/-- Lexicographic "less or equal" on a pair of keys: strictly smaller first
key, or equal first keys and `≤` on the second.  This is the order realised
by a two-level JS comparator `k1 a - k1 b || k2 a - k2 b`. -/
def lexLE {α β : Type} [LinearOrder α] [LinearOrder β] (p q : α × β) : Prop :=
  p.1 < q.1 ∨ (p.1 = q.1 ∧ p.2 ≤ q.2)

instance {α β : Type} [LinearOrder α] [LinearOrder β] (p q : α × β) :
    Decidable (lexLE p q) := by
  unfold lexLE
  infer_instance

/-- Bounding box of a text fragment in page coordinates, origin top-left,
y increasing downward (src/types BoundingBox). -/
structure BoundingBox where
  x : ℚ
  y : ℚ
  w : ℚ
  h : ℚ
deriving DecidableEq

/-- One positioned text fragment (src/types TextItem).  The text is a JS
string, modelled as a list of characters. -/
structure TextItem where
  text : List Char
  box : BoundingBox
  fontSize : ℚ
  fontName : List Char
deriving DecidableEq

/-- The order of the Block Clusterer's re-sort
(src/utils/layoutEngine.ts line 11, comparator
`a.box.y - b.box.y || a.box.x - b.box.x`): by exact y, then by x. -/
def yxLE (a b : TextItem) : Prop :=
  lexLE (a.box.y, a.box.x) (b.box.y, b.box.x)

instance : DecidableRel yxLE := fun a b =>
  inferInstanceAs (Decidable (lexLE _ _))

/-- Vertical band index of a y coordinate: `Math.floor(y / bandSize)` with
`bandSize = 20` (src/utils/layoutEngine.ts lines 52-54). -/
def bandOf (y : ℚ) : ℤ := ⌊y / 20⌋

/-- The order of the Fragment Sorter (src/utils/layoutEngine.ts lines
51-58): by band index of y, then by x. -/
def readLE (a b : TextItem) : Prop :=
  lexLE (bandOf a.box.y, a.box.x) (bandOf b.box.y, b.box.x)

instance : DecidableRel readLE := fun a b =>
  inferInstanceAs (Decidable (lexLE _ _))

/-- The function `determineReadingOrder` (src/utils/layoutEngine.ts lines 49-59):
a stable sort of the fragments by (band of y, x). -/
def determineReadingOrder (items : List TextItem) : List TextItem :=
  List.insertionSort readLE items

/-- The split test of `clusterTextItems` (src/utils/layoutEngine.ts lines
27-31): the current fragment starts a new block when
`verticalGap > Y_THRESHOLD` (`Y_THRESHOLD = 15`) or
`horizontalGap > X_THRESHOLD` (`X_THRESHOLD = pageWidth * 0.15`), with
`verticalGap = |item.box.y - lastBox.y|` and
`horizontalGap = |item.box.x - (lastBox.x + lastBox.w)|`. -/
def splitGap (pageWidth : ℚ) (lastBox box : BoundingBox) : Bool :=
  decide (15 < |box.y - lastBox.y|) ||
    decide (pageWidth * (15 / 100) < |box.x - (lastBox.x + lastBox.w)|)

/-- The fragment walk of `clusterTextItems` (src/utils/layoutEngine.ts
lines 20-41) after the first fragment has seeded `currentBlock`:
`lastBox` is the box of the previously processed fragment and `cur` the
block under construction; on a split the current block is pushed and a new
block starts with the fragment, otherwise the fragment joins the current
block.  The final non-empty block is flushed (line 41). -/
def clusterGo (pageWidth : ℚ) :
    BoundingBox → List TextItem → List TextItem → List (List TextItem)
  | _, cur, [] => [cur]
  | lastBox, cur, item :: rest =>
    if splitGap pageWidth lastBox item.box then
      cur :: clusterGo pageWidth item.box [item] rest
    else
      clusterGo pageWidth item.box (cur ++ [item]) rest

/-- The grouping pass of `clusterTextItems` on the already re-sorted
fragments: blocks of fragments, in order (src/utils/layoutEngine.ts lines
8-41; an empty input yields no blocks). -/
def clusterBlocks (pageWidth : ℚ) (items : List TextItem) :
    List (List TextItem) :=
  match items with
  | [] => []
  | item :: rest => clusterGo pageWidth item.box [item] rest

/-- The whitespace class of the JS regular expression `\s` and of
`String.prototype.trim` (ECMAScript WhiteSpace and LineTerminator): tab,
line feed, vertical tab, form feed, carriage return, space, no-break
space (U+00A0), Ogham space mark (U+1680), the en-quad..hair-space range
U+2000-U+200A, line separator (U+2028), paragraph separator (U+2029),
narrow no-break space (U+202F), medium mathematical space (U+205F),
ideographic space (U+3000) and the byte-order mark (U+FEFF). -/
def isWs (c : Char) : Bool :=
  c == ' ' || c == '\t' || c == '\n' || c == '\r' ||
    c == Char.ofNat 11 || c == Char.ofNat 12 ||
    c == Char.ofNat 160 || c == Char.ofNat 5760 ||
    (8192 ≤ c.toNat && c.toNat ≤ 8202) ||
    c == Char.ofNat 8232 || c == Char.ofNat 8233 ||
    c == Char.ofNat 8239 || c == Char.ofNat 8287 ||
    c == Char.ofNat 12288 || c == Char.ofNat 65279

/-- The JS step `.replace(/\s+/g, ' ')` (src/utils/layoutEngine.ts line 43): every
maximal run of whitespace becomes one space.  `prevWs` records whether the
previous character belonged to a whitespace run whose space has already
been emitted. -/
def collapseWs : Bool → List Char → List Char
  | _, [] => []
  | prevWs, c :: cs =>
    if isWs c then
      if prevWs then collapseWs true cs else ' ' :: collapseWs true cs
    else
      c :: collapseWs false cs

/-- The JS step `.trim()` (src/utils/layoutEngine.ts line 43): whitespace removed from
both ends. -/
def trimWs (l : List Char) : List Char :=
  ((l.dropWhile isWs).reverse.dropWhile isWs).reverse

/-- The JS rendering `b.join(' ').replace(/\s+/g, ' ').trim()` (src/utils/layoutEngine.ts
line 43) applied to one block's fragment texts. -/
def normalizeBlock (texts : List (List Char)) : List Char :=
  trimWs (collapseWs false (List.intercalate [' '] texts))

/-- The function `clusterTextItems` (src/utils/layoutEngine.ts lines 7-44): re-sort by
exact y then x, group by gap detection, and render each block as its
space-joined, whitespace-normalized text.  `pageHeight` is accepted and
unused, as in the source. -/
def clusterTextItems (items : List TextItem) (pageWidth pageHeight : ℚ) :
    List (List Char) :=
  (clusterBlocks pageWidth (List.insertionSort yxLE items)).map
    (fun b => normalizeBlock (b.map TextItem.text))

/-- One Timeline Clock step (src/unnamed/part_001 lines 237-241):
`startTime = max(nextStartTime, now)`; the next start time advances to
`startTime + bufferDuration / speed`.  Returns (startTime, new
nextStartTime). -/
def schedule (speed bufferDuration tNow nextStartTime : ℚ) : ℚ × ℚ :=
  (if nextStartTime ≤ tNow then tNow else nextStartTime,
    (if nextStartTime ≤ tNow then tNow else nextStartTime) + bufferDuration / speed)

/-- A sequence of Timeline Clock steps: each call is a pair
(bufferDuration, now); the result pairs each returned start time with its
segment's buffer duration. -/
def scheduleRuns (speed : ℚ) : List (ℚ × ℚ) → ℚ → List (ℚ × ℚ)
  | [], _ => []
  | (d, t) :: rest, nst =>
    ((schedule speed d t nst).1, d) :: scheduleRuns speed rest (schedule speed d t nst).2

/-- An AudioBufferSourceNode as far as stop handling observes it:
`started` is set by `source.start`, `stopped` by `source.stop`
(src/unnamed/part_001 lines 186, 232-243). -/
structure SourceHandle where
  hid : ℕ
  started : Bool
  stopped : Bool
deriving DecidableEq

/-- Calling `s.stop()` on a source node: throws an InvalidStateError when the node
was never started, otherwise marks it stopped (an already stopped node is
tolerated). -/
def stopSource (h : SourceHandle) : Except String SourceHandle :=
  if h.started then Except.ok { h with stopped := true }
  else Except.error "InvalidStateError"

/-- The guarded stop `try s.stop() catch ignore` (src/unnamed/part_001 line 186): a
failing stop leaves the handle as it was. -/
def tryStopSource (h : SourceHandle) : SourceHandle :=
  match stopSource h with
  | Except.ok h2 => h2
  | Except.error _ => h

/-- The mutable playback state `stopPlayback` touches
(src/unnamed/part_001 lines 104-118): the `isPlaying` flag, the set of
tracked sources and the timeline's next start time. -/
structure PlaybackRefs where
  isPlaying : Bool
  activeSources : List SourceHandle
  nextStartTime : ℚ
deriving DecidableEq

/-- The function `stopPlayback` (src/unnamed/part_001 lines 184-189): clear the play
flag, attempt to stop every tracked source (failures swallowed), clear the
tracked set and reset `nextStartTime` to zero.  The second component is
the list of handles after the stop attempts. -/
def stopPlayback (s : PlaybackRefs) : PlaybackRefs × List SourceHandle :=
  ({ isPlaying := false, activeSources := [], nextStartTime := 0 },
    s.activeSources.map tryStopSource)

/-- The function `processRawLayout` (src/unnamed/part_001 lines 13-39) reduced to its
result handling, `return response.text || rawText`: the generative call's
text payload is `responseText` (`none` for a missing field); a missing or
empty payload falls back to the raw input.  A call that throws is modelled
where the caller sits, by `Env.genResponse` returning an error. -/
def processRawLayout (responseText : Option String) (rawText : String) : String :=
  match responseText with
  | none => rawText
  | some t => if t = "" then rawText else t

/-- The closed block-type variant of src/types TextBlock. -/
inductive BlockType
  | paragraph
  | heading
  | listItem
  | table
  | sidebar
  | math
  | chartDesc
deriving DecidableEq

/-- The record src/types TextBlock. -/
structure Block where
  content : String
  btype : BlockType
  order : ℕ
  confidence : ℚ
deriving DecidableEq

/-- The record src/types PageContent, as `readLoop` reads it. -/
structure Page where
  pageNumber : ℕ
  blocks : List Block
  rawText : String
deriving DecidableEq

/-- The environment of one `readLoop` run: everything the loop reads from
outside.  `speed` is the captured `ttsState.speed`; `genResponse r` is the
generative clean-up call for raw text `r` (its text payload, or the thrown
error); `synth p b` is the combined `generateSpeech` + `decodeAudioData`
outcome for block `b` of page `p` (the decoded buffer's duration, or the
thrown error); `playFlag k` is the value of `isPlayingRef.current` at the
k-th read; `now k` is `audioContext.currentTime` at the k-th scheduling. -/
structure Env where
  speed : ℚ
  genResponse : String → Except String (Option String)
  synth : ℕ → ℕ → Except String ℚ
  playFlag : ℕ → Bool
  now : ℕ → ℚ

/-- The loop-visible mutable state of `readLoop` (src/unnamed/part_001
lines 104-118, 205-257): the timeline's next start time, the tracked
sources (by (page, block) of the segment that created them), the shared
cursor, the displayed text and the play flag, plus counters indexing the
environment's read traces. -/
structure LoopState where
  nextStartTime : ℚ
  active : List (ℕ × ℕ)
  checks : ℕ
  schedIdx : ℕ
  cursorPage : ℕ
  cursorBlock : ℕ
  currentText : String
  isPlaying : Bool
deriving DecidableEq

/-- What one `readLoop` run emits: an audible start for a block (with its
start time and duration), or a logged skip after a caught per-block
failure (src/unnamed/part_001 lines 228-250). -/
inductive Event
  | started (p b : ℕ) (startTime dur : ℚ)
  | skipped (p b : ℕ) (msg : String)
deriving DecidableEq

/-- The (page, block) key a started event tracked, if any. -/
def startedHandle : Event → Option (ℕ × ℕ)
  | Event.started p b _ _ => some (p, b)
  | Event.skipped _ _ _ => none

/-- Lazy clean-up at the top of the page loop (src/unnamed/part_001 lines
214-219): a page without blocks gets exactly one paragraph block from
`processRawLayout`; a throwing clean-up call propagates (there is no
try/catch around it). -/
def pageBlocksResolved (env : Env) (pg : Page) : Except String (List Block) :=
  if pg.blocks.isEmpty then
    match env.genResponse pg.rawText with
    | Except.error e => Except.error e
    | Except.ok rt =>
      Except.ok [{ content := processRawLayout rt pg.rawText,
                   btype := BlockType.paragraph, order := 0, confidence := 1 }]
  else Except.ok pg.blocks

/-- The inner block loop of `readLoop` (src/unnamed/part_001 lines
221-252) over the remaining blocks of page `p`, `bIdx` being the absolute
index of the first of them: read the play flag and return when cleared
(third component true = the whole loop returns); otherwise publish the
block, synthesize (a caught failure emits a skip and moves on), schedule
on the timeline, start the source and track it.  No play-flag read happens
between the synthesis call and the start of the source. -/
def runInner (env : Env) (p : ℕ) :
    List Block → ℕ → LoopState → LoopState × List Event × Bool
  | [], _, st => (st, [], false)
  | blk :: rest, bIdx, st =>
    let st1 : LoopState := { st with checks := st.checks + 1 }
    if env.playFlag st.checks then
      let st2 : LoopState :=
        { st1 with currentText := blk.content, cursorPage := p, cursorBlock := bIdx }
      match env.synth p bIdx with
      | Except.error e =>
        let r := runInner env p rest (bIdx + 1) st2
        (r.1, Event.skipped p bIdx e :: r.2.1, r.2.2)
      | Except.ok dur =>
        let pr := schedule env.speed dur (env.now st2.schedIdx) st2.nextStartTime
        let st3 : LoopState :=
          { st2 with nextStartTime := pr.2,
                     active := st2.active ++ [(p, bIdx)],
                     schedIdx := st2.schedIdx + 1 }
        let r := runInner env p rest (bIdx + 1) st3
        (r.1, Event.started p bIdx pr.1 dur :: r.2.1, r.2.2)
    else (st1, [], true)

/-- The page loop of `readLoop` (src/unnamed/part_001 lines 211-256):
resolve the page's blocks (propagating a clean-up error), run the block
loop from `bIdx0` (0 from the second page on), stop everything when the
block loop saw a cleared play flag, and after the last page reset the
cursor and the play flag. -/
def runPages (env : Env) :
    List Page → ℕ → ℕ → LoopState → Except String (LoopState × List Event)
  | [], _, _, st =>
    Except.ok ({ st with isPlaying := false, cursorPage := 0, cursorBlock := 0 }, [])
  | pg :: rest, pIdx, bIdx0, st =>
    match pageBlocksResolved env pg with
    | Except.error e => Except.error e
    | Except.ok blocks =>
      let r := runInner env pIdx (blocks.drop bIdx0) bIdx0 st
      if r.2.2 then Except.ok (r.1, r.2.1)
      else
        match runPages env rest (pIdx + 1) 0 r.1 with
        | Except.error e => Except.error e
        | Except.ok pr => Except.ok (pr.1, r.2.1 ++ pr.2)

/-- The function `readLoop` (src/unnamed/part_001 lines 205-257): iterate pages from
the cursor's page, blocks of the first page from the cursor's block. -/
def readLoop (env : Env) (pages : List Page) (st : LoopState) :
    Except String (LoopState × List Event) :=
  runPages env (pages.drop st.cursorPage) st.cursorPage st.cursorBlock st

/-- The loop state right after `playTTS` starts a fresh run. -/
def initSt : LoopState :=
  { nextStartTime := 0, active := [], checks := 0, schedIdx := 0,
    cursorPage := 0, cursorBlock := 0, currentText := "", isPlaying := true }

/-- Within one block, two consecutive fragments never satisfied the split
test. -/
def noSplit (pageWidth : ℚ) (a b : TextItem) : Prop :=
  splitGap pageWidth a.box b.box = false

/-- Between two consecutive blocks, the last fragment of the first and the
first fragment of the second satisfied the split test. -/
def boundarySplit (pageWidth : ℚ) (b c : List TextItem) : Prop :=
  ∀ x ∈ b.getLast?, ∀ y ∈ c.head?, splitGap pageWidth x.box y.box = true

/-- Two adjacent characters are never both whitespace. -/
def noAdjWs (a b : Char) : Prop :=
  isWs a = false ∨ isWs b = false

/-- How many blocks the block loop visits on a page: one synthetic block
when clean-up has to run, otherwise the page's own block count. -/
def effBlockCount (pg : Page) : ℕ :=
  if pg.blocks.isEmpty then 1 else pg.blocks.length

/-- Total number of blocks `runPages` visits from block `b0` of the first
remaining page. -/
def expectedCount : List Page → ℕ → ℕ
  | [], _ => 0
  | pg :: rest, b0 => (effBlockCount pg - b0) + expectedCount rest 0

/-- A run in which a stop is issued while the first block's synthesis is
in flight: the play flag reads true at the first check and false at every
later read; synthesis succeeds with a 2-second buffer; the audio clock
stands at 0. -/
def envStopMidSynth : Env :=
  { speed := 1,
    genResponse := fun r => Except.ok (some r),
    synth := fun _ _ => Except.ok 2,
    playFlag := fun k => k == 0,
    now := fun _ => 0 }

/-- A one-page, one-block document for the stop-during-synthesis run. -/
def pagesStopMidSynth : List Page :=
  [{ pageNumber := 1,
     blocks := [{ content := "First block text", btype := BlockType.paragraph,
                  order := 0, confidence := 1 }],
     rawText := "first page raw text" }]

/-- A run in which the first block's synthesis call fails and the second
block's succeeds, with the play flag held and clean-up echoing its
input. -/
def envSynthFail : Env :=
  { speed := 1,
    genResponse := fun r => Except.ok (some r),
    synth := fun _ b =>
      if b == 0 then Except.error "no audio generated" else Except.ok 2,
    playFlag := fun _ => true,
    now := fun _ => 0 }

/-- A one-page, two-block document for the synthesis-failure run. -/
def pagesSynthFail : List Page :=
  [{ pageNumber := 1,
     blocks :=
       [{ content := "failing block", btype := BlockType.paragraph,
          order := 0, confidence := 1 },
        { content := "working block", btype := BlockType.paragraph,
          order := 1, confidence := 1 }],
     rawText := "raw" }]

/-- A run in which the generative clean-up call for the first page throws:
the play flag stays true and synthesis would succeed, but the page has no
blocks yet and the clean-up call errors. -/
def envCleanupThrows : Env :=
  { speed := 1,
    genResponse := fun _ => Except.error "cleanup call failed",
    synth := fun _ _ => Except.ok 2,
    playFlag := fun _ => true,
    now := fun _ => 0 }

/-- A one-page document whose blocks are not yet populated, so `readLoop`
must run clean-up for it. -/
def pagesCleanupThrows : List Page :=
  [{ pageNumber := 1, blocks := [], rawText := "raw clustered page text" }]

instance : IsTotal TextItem yxLE :=
  ⟨fun a b => by
    unfold yxLE lexLE
    rcases lt_trichotomy a.box.y b.box.y with h | h | h
    · exact Or.inl (Or.inl h)
    · rcases le_total a.box.x b.box.x with hx | hx
      · exact Or.inl (Or.inr ⟨h, hx⟩)
      · exact Or.inr (Or.inr ⟨h.symm, hx⟩)
    · exact Or.inr (Or.inl h)⟩

instance : IsTrans TextItem yxLE :=
  ⟨fun a b c hab hbc => by
    unfold yxLE lexLE at *
    rcases hab with h1 | ⟨e1, x1⟩ <;> rcases hbc with h2 | ⟨e2, x2⟩
    · exact Or.inl (h1.trans h2)
    · exact Or.inl (e2 ▸ h1)
    · exact Or.inl (e1 ▸ h2)
    · exact Or.inr ⟨e1.trans e2, x1.trans x2⟩⟩

instance : IsTotal TextItem readLE :=
  ⟨fun a b => by
    unfold readLE lexLE
    rcases lt_trichotomy (bandOf a.box.y) (bandOf b.box.y) with h | h | h
    · exact Or.inl (Or.inl h)
    · rcases le_total a.box.x b.box.x with hx | hx
      · exact Or.inl (Or.inr ⟨h, hx⟩)
      · exact Or.inr (Or.inr ⟨h.symm, hx⟩)
    · exact Or.inr (Or.inl h)⟩

instance : IsTrans TextItem readLE :=
  ⟨fun a b c hab hbc => by
    unfold readLE lexLE at *
    rcases hab with h1 | ⟨e1, x1⟩ <;> rcases hbc with h2 | ⟨e2, x2⟩
    · exact Or.inl (h1.trans h2)
    · exact Or.inl (e2 ▸ h1)
    · exact Or.inl (e1 ▸ h2)
    · exact Or.inr ⟨e1.trans e2, x1.trans x2⟩⟩

/-- Claim C3: `determineReadingOrder` returns a permutation of its input
sorted by ascending band index `floor(y / 20)` and, within equal bands, by
ascending x; ties (equal band and equal x) preserve the input's relative
order; empty input yields empty output. -/
theorem determineReadingOrder_spec (l : List TextItem) :
    (determineReadingOrder l).Perm l ∧
    List.Sorted readLE (determineReadingOrder l) ∧
    (∀ bd : ℤ, ∀ xv : ℚ,
      (determineReadingOrder l).filter
          (fun it => decide (bandOf it.box.y = bd ∧ it.box.x = xv)) =
        l.filter (fun it => decide (bandOf it.box.y = bd ∧ it.box.x = xv))) ∧
    determineReadingOrder [] = [] := by
  refine ⟨List.perm_insertionSort readLE l, List.sorted_insertionSort readLE l, ?_, rfl⟩
  intro bd xv
  set f : TextItem → Bool :=
    fun it => decide (bandOf it.box.y = bd ∧ it.box.x = xv) with hf
  have hmem : ∀ it ∈ l.filter f, bandOf it.box.y = bd ∧ it.box.x = xv := by
    intro it hit
    simpa [hf] using List.of_mem_filter hit
  have hpw : (l.filter f).Pairwise readLE := by
    refine List.pairwise_of_forall_mem_list ?_
    intro u hu v hv
    obtain ⟨hub, hux⟩ := hmem u hu
    obtain ⟨hvb, hvx⟩ := hmem v hv
    unfold readLE lexLE
    exact Or.inr ⟨by rw [hub, hvb], by rw [hux, hvx]⟩
  have hsub : (l.filter f).Sublist (determineReadingOrder l) :=
    List.sublist_insertionSort hpw (List.filter_sublist l)
  have hff : (l.filter f).filter f = l.filter f :=
    List.filter_eq_self.mpr fun a ha => List.of_mem_filter ha
  have hsub2 : (l.filter f).Sublist ((determineReadingOrder l).filter f) := by
    have := List.Sublist.filter f hsub
    rwa [hff] at this
  have hperm : ((determineReadingOrder l).filter f).Perm (l.filter f) :=
    List.Perm.filter f (List.perm_insertionSort readLE l)
  exact (hsub2.eq_of_length hperm.length_eq.symm).symm

/-- Joining the blocks of the fragment walk gives back the pending block
followed by the unprocessed fragments. -/
theorem clusterGo_join (pw : ℚ) :
    ∀ (items : List TextItem) (lastBox : BoundingBox) (cur : List TextItem),
      (clusterGo pw lastBox cur items).flatten = cur ++ items := by
  intro items
  induction items with
  | nil => intro lastBox cur; simp [clusterGo]
  | cons item rest ih =>
    intro lastBox cur
    cases h : splitGap pw lastBox item.box with
    | true => simp [clusterGo, h, ih]
    | false => simp [clusterGo, h, ih]

/-- Every block the fragment walk emits is non-empty when the pending
block is. -/
theorem clusterGo_ne_nil (pw : ℚ) :
    ∀ (items : List TextItem) (lastBox : BoundingBox) (cur : List TextItem),
      cur ≠ [] → ∀ b ∈ clusterGo pw lastBox cur items, b ≠ [] := by
  intro items
  induction items with
  | nil =>
    intro lastBox cur hcur b hb
    simp only [clusterGo, List.mem_singleton] at hb
    exact hb ▸ hcur
  | cons item rest ih =>
    intro lastBox cur hcur b hb
    cases h : splitGap pw lastBox item.box with
    | true =>
      simp only [clusterGo, h, if_true, List.mem_cons] at hb
      rcases hb with rfl | hb
      · exact hcur
      · exact ih item.box [item] (by simp) b hb
    | false =>
      simp only [clusterGo, h, Bool.false_eq_true, if_false] at hb
      exact ih item.box (cur ++ [item]) (by simp) b hb

/-- The first block the fragment walk emits extends the pending block. -/
theorem clusterGo_first (pw : ℚ) :
    ∀ (items : List TextItem) (lastBox : BoundingBox) (cur : List TextItem),
      ∃ ext bs, clusterGo pw lastBox cur items = (cur ++ ext) :: bs := by
  intro items
  induction items with
  | nil => intro lastBox cur; exact ⟨[], [], by simp [clusterGo]⟩
  | cons item rest ih =>
    intro lastBox cur
    cases h : splitGap pw lastBox item.box with
    | true =>
      exact ⟨[], clusterGo pw item.box [item] rest, by simp [clusterGo, h]⟩
    | false =>
      obtain ⟨ext, bs, he⟩ := ih item.box (cur ++ [item])
      exact ⟨item :: ext, bs, by simp [clusterGo, h, he]⟩

/-- Inside every emitted block, no adjacent fragment pair satisfies the
split test, given the invariant that `lastBox` is the box of the pending
block's last fragment. -/
theorem clusterGo_within (pw : ℚ) :
    ∀ (items : List TextItem) (lastBox : BoundingBox) (cur : List TextItem)
      (tl : TextItem), cur.getLast? = some tl → tl.box = lastBox →
      cur.Chain' (noSplit pw) →
      ∀ b ∈ clusterGo pw lastBox cur items, b.Chain' (noSplit pw) := by
  intro items
  induction items with
  | nil =>
    intro lastBox cur tl _ _ hchain b hb
    simp only [clusterGo, List.mem_singleton] at hb
    exact hb ▸ hchain
  | cons item rest ih =>
    intro lastBox cur tl hlast hbox hchain b hb
    cases h : splitGap pw lastBox item.box with
    | true =>
      simp only [clusterGo, h, if_true, List.mem_cons] at hb
      rcases hb with rfl | hb
      · exact hchain
      · exact ih item.box [item] item rfl rfl (List.chain'_singleton item) b hb
    | false =>
      simp only [clusterGo, h, Bool.false_eq_true, if_false] at hb
      refine ih item.box (cur ++ [item]) item (List.getLast?_concat cur) rfl ?_ b hb
      refine List.chain'_append.mpr ⟨hchain, List.chain'_singleton item, ?_⟩
      intro x hx y hy
      rw [hlast, Option.mem_some_iff] at hx
      simp only [List.head?_cons, Option.mem_some_iff] at hy
      subst hx
      subst hy
      unfold noSplit
      rw [hbox]
      exact h

/-- Across every emitted block boundary, the adjacent fragment pair
satisfies the split test, under the same `lastBox` invariant. -/
theorem clusterGo_boundary (pw : ℚ) :
    ∀ (items : List TextItem) (lastBox : BoundingBox) (cur : List TextItem)
      (tl : TextItem), cur.getLast? = some tl → tl.box = lastBox →
      List.Chain' (boundarySplit pw) (clusterGo pw lastBox cur items) := by
  intro items
  induction items with
  | nil =>
    intro lastBox cur tl _ _
    exact List.chain'_singleton cur
  | cons item rest ih =>
    intro lastBox cur tl hlast hbox
    cases h : splitGap pw lastBox item.box with
    | true =>
      simp only [clusterGo, h, if_true]
      refine List.chain'_cons'.mpr ⟨?_, ih item.box [item] item rfl rfl⟩
      intro y hy
      obtain ⟨ext, bs, he⟩ := clusterGo_first pw rest item.box [item]
      rw [he] at hy
      simp only [List.head?_cons, Option.mem_some_iff] at hy
      subst hy
      intro x hx z hz
      rw [hlast, Option.mem_some_iff] at hx
      simp only [List.singleton_append, List.head?_cons, Option.mem_some_iff] at hz
      subst hx
      subst hz
      rw [hbox]
      exact h
    | false =>
      simp only [clusterGo, h, Bool.false_eq_true, if_false]
      exact ih item.box (cur ++ [item]) item (List.getLast?_concat cur) rfl

/-- Claim C2: after the clusterer's own re-sort by exact y then x, the
blocks of `clusterTextItems` partition the sorted fragment sequence
(`join` gives it back, no block empty), adjacent fragments inside one
block never satisfy the split test (`verticalGap > 15` or
`horizontalGap > 0.15 * pageWidth`), and across every block boundary the
two adjacent fragments do satisfy it — so adjacent sorted fragments land
in different blocks exactly when the split test fires. -/
theorem clusterTextItems_split_rule (items : List TextItem) (pw ph : ℚ) :
    (clusterBlocks pw (List.insertionSort yxLE items)).flatten =
        List.insertionSort yxLE items ∧
    (∀ b ∈ clusterBlocks pw (List.insertionSort yxLE items), b ≠ []) ∧
    (∀ b ∈ clusterBlocks pw (List.insertionSort yxLE items),
      b.Chain' (noSplit pw)) ∧
    List.Chain' (boundarySplit pw)
      (clusterBlocks pw (List.insertionSort yxLE items)) ∧
    clusterTextItems items pw ph =
      (clusterBlocks pw (List.insertionSort yxLE items)).map
        (fun b => normalizeBlock (b.map TextItem.text)) := by
  cases hs : List.insertionSort yxLE items with
  | nil =>
    refine ⟨?_, ?_, ?_, ?_, ?_⟩ <;> simp [clusterBlocks, clusterTextItems, hs]
  | cons a rest =>
    refine ⟨clusterGo_join pw rest a.box [a],
      clusterGo_ne_nil pw rest a.box [a] (by simp),
      clusterGo_within pw rest a.box [a] a rfl rfl (List.chain'_singleton a),
      clusterGo_boundary pw rest a.box [a] a rfl rfl,
      by simp [clusterTextItems, hs]⟩

/-- Inside a whitespace run whose space was already emitted, the next
emitted character is not whitespace. -/
theorem collapseWs_head_true :
    ∀ (l : List Char), ∀ c ∈ (collapseWs true l).head?, isWs c = false := by
  intro l
  induction l with
  | nil => intro c hc; simp [collapseWs] at hc
  | cons a cs ih =>
    intro c hc
    cases ha : isWs a with
    | true =>
      simp only [collapseWs, ha, if_true] at hc
      exact ih c hc
    | false =>
      simp only [collapseWs, ha, Bool.false_eq_true, if_false,
        List.head?_cons, Option.mem_some_iff] at hc
      exact hc ▸ ha

/-- Whitespace collapsing never leaves two adjacent whitespace
characters. -/
theorem collapseWs_chain :
    ∀ (l : List Char) (p : Bool), List.Chain' noAdjWs (collapseWs p l) := by
  intro l
  induction l with
  | nil => intro p; simp [collapseWs]
  | cons a cs ih =>
    intro p
    cases ha : isWs a with
    | true =>
      cases p with
      | true =>
        simpa only [collapseWs, ha, if_true] using ih true
      | false =>
        simp only [collapseWs, ha, if_true, Bool.false_eq_true, if_false]
        refine List.chain'_cons'.mpr ⟨?_, ih true⟩
        intro y hy
        exact Or.inr (collapseWs_head_true cs y hy)
    | false =>
      simp only [collapseWs, ha, Bool.false_eq_true, if_false]
      refine List.chain'_cons'.mpr ⟨?_, ih false⟩
      intro y _
      exact Or.inl ha

/-- Dropping leading whitespace leaves a head that is not whitespace. -/
theorem dropWhile_head_not_ws :
    ∀ (l : List Char), ∀ c ∈ (l.dropWhile isWs).head?, isWs c = false := by
  intro l
  induction l with
  | nil => intro c hc; simp at hc
  | cons a cs ih =>
    intro c hc
    cases ha : isWs a with
    | true =>
      simp only [List.dropWhile_cons, ha, if_true] at hc
      exact ih c hc
    | false =>
      simp only [List.dropWhile_cons, ha, Bool.false_eq_true, if_false,
        List.head?_cons, Option.mem_some_iff] at hc
      exact hc ▸ ha

/-- Trimming preserves the absence of adjacent whitespace pairs. -/
theorem trimWs_chain (l : List Char) (h : List.Chain' noAdjWs l) :
    List.Chain' noAdjWs (trimWs l) := by
  unfold trimWs
  have h1 : List.Chain' noAdjWs (l.dropWhile isWs) :=
    List.Chain'.suffix h (List.dropWhile_suffix isWs)
  have h2 : List.Chain' noAdjWs ((l.dropWhile isWs).reverse) :=
    List.chain'_reverse.mpr (h1.imp fun _ _ hab => Or.symm hab)
  have h3 : List.Chain' noAdjWs ((l.dropWhile isWs).reverse.dropWhile isWs) :=
    List.Chain'.suffix h2 (List.dropWhile_suffix isWs)
  exact List.chain'_reverse.mpr (h3.imp fun _ _ hab => Or.symm hab)

/-- A trimmed list never ends in whitespace. -/
theorem trimWs_getLast (l : List Char) :
    ∀ c ∈ (trimWs l).getLast?, isWs c = false := by
  intro c hc
  unfold trimWs at hc
  rw [List.getLast?_reverse] at hc
  exact dropWhile_head_not_ws _ c hc

/-- A trimmed list never starts with whitespace. -/
theorem trimWs_head (l : List Char) :
    ∀ c ∈ (trimWs l).head?, isWs c = false := by
  intro c hc
  unfold trimWs at hc
  rw [List.head?_reverse] at hc
  obtain ⟨t, ht⟩ := List.dropWhile_suffix (l := (l.dropWhile isWs).reverse) isWs
  have hrev : (l.dropWhile isWs).reverse.getLast? = some c := by
    rw [← ht, List.getLast?_append, hc]
    rfl
  rw [List.getLast?_reverse] at hrev
  exact dropWhile_head_not_ws l c hrev

/-- Claim C8: every block string produced by the clusterer is the
normalized (space-joined, whitespace-collapsed, trimmed) text of one of
its fragment blocks; consequently no output block contains two adjacent
whitespace characters nor leading or trailing whitespace. -/
theorem clusterTextItems_block_text_normalized (items : List TextItem)
    (pw ph : ℚ) (s : List Char) (hs : s ∈ clusterTextItems items pw ph) :
    List.Chain' noAdjWs s ∧
    (∀ c ∈ s.head?, isWs c = false) ∧
    (∀ c ∈ s.getLast?, isWs c = false) ∧
    ∃ b ∈ clusterBlocks pw (List.insertionSort yxLE items),
      s = normalizeBlock (b.map TextItem.text) := by
  obtain ⟨b, hb, rfl⟩ := List.mem_map.mp hs
  exact ⟨trimWs_chain _ (collapseWs_chain _ false), trimWs_head _,
    trimWs_getLast _, b, hb, rfl⟩

/-- Witness for claim C8 at a one-fragment page whose text carries messy
whitespace: the produced block is the normalized text. -/
theorem clusterTextItems_block_text_normalized_witness :
    List.Chain' noAdjWs ("Hello world".toList) ∧
    (∀ c ∈ ("Hello world".toList).head?, isWs c = false) ∧
    (∀ c ∈ ("Hello world".toList).getLast?, isWs c = false) ∧
    ∃ b ∈ clusterBlocks 400
        (List.insertionSort yxLE
          [⟨"  Hello \t world ".toList, ⟨0, 0, 50, 10⟩, 12, []⟩]),
      "Hello world".toList = normalizeBlock (b.map TextItem.text) :=
  clusterTextItems_block_text_normalized
    [⟨"  Hello \t world ".toList, ⟨0, 0, 50, 10⟩, 12, []⟩] 400 700
    "Hello world".toList (by decide)

/-- Claim C9: fewer than two fragments yield at most one block; an empty
fragment list yields an empty sequence and a single fragment yields
exactly one block. -/
theorem clusterTextItems_small_input (items : List TextItem) (pw ph : ℚ)
    (h : items.length < 2) :
    (clusterTextItems items pw ph).length ≤ 1 ∧
    clusterTextItems [] pw ph = [] ∧
    (∀ it : TextItem, (clusterTextItems [it] pw ph).length = 1) := by
  have hsingle : ∀ it : TextItem, (clusterTextItems [it] pw ph).length = 1 :=
    fun it => rfl
  refine ⟨?_, rfl, hsingle⟩
  rcases items with _ | ⟨a, _ | ⟨b, rest⟩⟩
  · exact Nat.zero_le 1
  · exact le_of_eq (hsingle a)
  · exfalso
    simp only [List.length_cons] at h
    omega

/-- Witness for claim C9 at a concrete one-fragment input. -/
theorem clusterTextItems_small_input_witness :
    (clusterTextItems [⟨"only".toList, ⟨10, 20, 30, 10⟩, 12, []⟩] 400 700).length ≤ 1 ∧
    clusterTextItems [] 400 700 = [] ∧
    (∀ it : TextItem, (clusterTextItems [it] 400 700).length = 1) :=
  clusterTextItems_small_input [⟨"only".toList, ⟨10, 20, 30, 10⟩, 12, []⟩] 400 700
    (by decide)

/-- Claim C10: when the generative clean-up call completes without
throwing but its text payload is missing or empty, `processRawLayout`
returns its raw input unchanged; a non-empty payload is returned as is. -/
theorem processRawLayout_payload_fallback (raw t : String) (h : t ≠ "") :
    processRawLayout none raw = raw ∧
    processRawLayout (some "") raw = raw ∧
    processRawLayout (some t) raw = t :=
  ⟨rfl, by simp [processRawLayout], by simp [processRawLayout, h]⟩

/-- Witness for claim C10 at concrete strings. -/
theorem processRawLayout_payload_fallback_witness :
    processRawLayout none "raw page text" = "raw page text" ∧
    processRawLayout (some "") "raw page text" = "raw page text" ∧
    processRawLayout (some "Cleaned narrative.") "raw page text" = "Cleaned narrative." :=
  processRawLayout_payload_fallback "raw page text" "Cleaned narrative." (by decide)

/-- Claim C4: after `stopPlayback`, whatever the prior state, the tracked
source set is empty, `nextStartTime` is zero and the play flag is
cleared; every handle that had been started is stopped, and handles that
had already finished are tolerated (the stop attempt cannot fail the
call). -/
theorem stopPlayback_clears_state (s : PlaybackRefs) :
    (stopPlayback s).1.activeSources = [] ∧
    (stopPlayback s).1.nextStartTime = 0 ∧
    (stopPlayback s).1.isPlaying = false ∧
    ∀ h ∈ (stopPlayback s).2, h.started = true → h.stopped = true := by
  refine ⟨rfl, rfl, rfl, ?_⟩
  intro h hm hstart
  obtain ⟨g, _, rfl⟩ := List.mem_map.mp hm
  cases hgs : g.started with
  | true => simp [tryStopSource, stopSource, hgs]
  | false => simp [tryStopSource, stopSource, hgs] at hstart

/-- For positive speed and non-negative durations, consecutive scheduled
segments have non-decreasing starts and non-overlapping intervals, and the
first start is no earlier than the initial next start time. -/
theorem scheduleRuns_chains (speed : ℚ) (hsp : 0 < speed) :
    ∀ (calls : List (ℚ × ℚ)) (nst : ℚ), (∀ p ∈ calls, 0 ≤ p.1) →
      List.Chain' (fun a b : ℚ × ℚ => a.1 ≤ b.1) (scheduleRuns speed calls nst) ∧
      List.Chain' (fun a b : ℚ × ℚ => a.1 + a.2 / speed ≤ b.1)
        (scheduleRuns speed calls nst) ∧
      ∀ x ∈ (scheduleRuns speed calls nst).head?, nst ≤ x.1 := by
  intro calls
  induction calls with
  | nil => intro nst _; exact ⟨List.chain'_nil, List.chain'_nil, by simp [scheduleRuns]⟩
  | cons c rest ih =>
    obtain ⟨d, t⟩ := c
    intro nst hd
    have hd0 : 0 ≤ d := hd (d, t) (List.mem_cons_self _ _)
    have hdrest : ∀ p ∈ rest, 0 ≤ p.1 := fun p hp => hd p (List.mem_cons_of_mem _ hp)
    obtain ⟨ch1, ch2, hhead⟩ := ih (schedule speed d t nst).2 hdrest
    have hstep : (schedule speed d t nst).1 ≤ (schedule speed d t nst).2 := by
      unfold schedule
      dsimp only
      have hq : 0 ≤ d / speed := div_nonneg hd0 hsp.le
      split <;> linarith
    refine ⟨?_, ?_, ?_⟩
    · rw [scheduleRuns]
      refine List.chain'_cons'.mpr ⟨?_, ch1⟩
      intro y hy
      exact le_trans hstep (hhead y hy)
    · rw [scheduleRuns]
      refine List.chain'_cons'.mpr ⟨?_, ch2⟩
      intro y hy
      exact hhead y hy
    · rw [scheduleRuns]
      intro x hx
      simp only [List.head?_cons, Option.mem_some_iff] at hx
      subst hx
      unfold schedule
      dsimp only
      split
      · assumption
      · exact le_refl nst

/-- Claim C1: every Timeline Clock step returns
`max(nextStartTime, now)` and advances `nextStartTime` by
`bufferDuration / speed`; for any sequence of calls with non-decreasing
`now` values (positive speed, non-negative durations), the returned start
times are non-decreasing and each segment's
`[start, start + duration / speed)` interval never overlaps its
predecessor's; three 2-second segments at speed 1 with `now` constantly 0
start at 0, 2 and 4. -/
theorem schedule_timeline_monotone (speed : ℚ) (calls : List (ℚ × ℚ))
    (nst0 : ℚ) (hsp : 0 < speed) (hdur : ∀ p ∈ calls, 0 ≤ p.1)
    (hnow : List.Chain' (fun a b : ℚ × ℚ => a.2 ≤ b.2) calls) :
    (∀ d t nst : ℚ, schedule speed d t nst = (max nst t, max nst t + d / speed)) ∧
    List.Chain' (fun a b : ℚ × ℚ => a.1 ≤ b.1) (scheduleRuns speed calls nst0) ∧
    List.Chain' (fun a b : ℚ × ℚ => a.1 + a.2 / speed ≤ b.1)
      (scheduleRuns speed calls nst0) ∧
    (scheduleRuns 1 [(2, 0), (2, 0), (2, 0)] 0).map Prod.fst = [0, 2, 4] := by
  obtain ⟨c1, c2, _⟩ := scheduleRuns_chains speed hsp calls nst0 hdur
  refine ⟨?_, c1, c2, ?_⟩
  · intro d t nst
    simp [schedule, max_def]
  · norm_num [scheduleRuns, schedule]

/-- Witness for claim C1 at the spec's scenario: three 2-second segments
at speed 1 arriving instantly. -/
theorem schedule_timeline_monotone_witness :
    (0 : ℚ) < 1 ∧
    (∀ p ∈ ([(2, 0), (2, 0), (2, 0)] : List (ℚ × ℚ)), 0 ≤ p.1) ∧
    List.Chain' (fun a b : ℚ × ℚ => a.2 ≤ b.2)
      ([(2, 0), (2, 0), (2, 0)] : List (ℚ × ℚ)) ∧
    ((∀ d t nst : ℚ, schedule 1 d t nst = (max nst t, max nst t + d / 1)) ∧
      List.Chain' (fun a b : ℚ × ℚ => a.1 ≤ b.1)
        (scheduleRuns 1 [(2, 0), (2, 0), (2, 0)] 0) ∧
      List.Chain' (fun a b : ℚ × ℚ => a.1 + a.2 / 1 ≤ b.1)
        (scheduleRuns 1 [(2, 0), (2, 0), (2, 0)] 0) ∧
      (scheduleRuns 1 [(2, 0), (2, 0), (2, 0)] 0).map Prod.fst = [0, 2, 4]) :=
  ⟨by norm_num, by decide,
    by norm_num [List.chain'_cons, List.chain'_singleton],
    schedule_timeline_monotone 1 [(2, 0), (2, 0), (2, 0)] 0 (by norm_num)
      (by decide) (by norm_num [List.chain'_cons, List.chain'_singleton])⟩

/-- With the play flag held, the block loop never halts early, tracks
exactly the started segments, pairs started and skipped events with the
synthesis oracle's outcomes, and emits one event per block. -/
theorem runInner_flag_true (env : Env) (p : ℕ) (hflag : ∀ k, env.playFlag k = true) :
    ∀ (blocks : List Block) (bIdx : ℕ) (st : LoopState),
      (runInner env p blocks bIdx st).2.2 = false ∧
      (runInner env p blocks bIdx st).1.active =
        st.active ++ (runInner env p blocks bIdx st).2.1.filterMap startedHandle ∧
      (∀ q b s d, Event.started q b s d ∈ (runInner env p blocks bIdx st).2.1 →
        ∃ r, env.synth q b = Except.ok r) ∧
      (∀ q b e, Event.skipped q b e ∈ (runInner env p blocks bIdx st).2.1 →
        env.synth q b = Except.error e) ∧
      (runInner env p blocks bIdx st).2.1.length = blocks.length := by
  intro blocks
  induction blocks with
  | nil =>
    intro bIdx st
    refine ⟨rfl, by simp [runInner], ?_, ?_, rfl⟩ <;> simp [runInner]
  | cons blk rest ih =>
    intro bIdx st
    have hf : env.playFlag st.checks = true := hflag st.checks
    cases hsy : env.synth p bIdx with
    | error e =>
      obtain ⟨ih1, ih2, ih3, ih4, ih5⟩ := ih (bIdx + 1)
        { st with
          checks := st.checks + 1, currentText := blk.content,
          cursorPage := p, cursorBlock := bIdx }
      refine ⟨?_, ?_, ?_, ?_, ?_⟩
      · simpa only [runInner, hf, if_true, hsy] using ih1
      · simp only [runInner, hf, if_true, hsy, List.filterMap_cons, startedHandle]
        simpa using ih2
      · intro q b s d hmem
        simp only [runInner, hf, if_true, hsy, List.mem_cons] at hmem
        rcases hmem with hmem | hmem
        · exact absurd hmem (by simp)
        · exact ih3 q b s d hmem
      · intro q b e2 hmem
        simp only [runInner, hf, if_true, hsy, List.mem_cons] at hmem
        rcases hmem with hmem | hmem
        · obtain ⟨rfl, rfl, rfl⟩ := Event.skipped.inj hmem
          exact hsy
        · exact ih4 q b e2 hmem
      · simp only [runInner, hf, if_true, hsy, List.length_cons]
        simpa using ih5
    | ok dur =>
      obtain ⟨ih1, ih2, ih3, ih4, ih5⟩ := ih (bIdx + 1)
        { st with
          checks := st.checks + 1, currentText := blk.content,
          cursorPage := p, cursorBlock := bIdx,
          nextStartTime :=
            (schedule env.speed dur (env.now st.schedIdx) st.nextStartTime).2,
          active := st.active ++ [(p, bIdx)],
          schedIdx := st.schedIdx + 1 }
      refine ⟨?_, ?_, ?_, ?_, ?_⟩
      · simpa only [runInner, hf, if_true, hsy] using ih1
      · simp only [runInner, hf, if_true, hsy, List.filterMap_cons, startedHandle]
        simp only [ih2]
        simp
      · intro q b s d hmem
        simp only [runInner, hf, if_true, hsy, List.mem_cons] at hmem
        rcases hmem with hmem | hmem
        · obtain ⟨rfl, rfl, rfl, rfl⟩ := Event.started.inj hmem
          exact ⟨_, hsy⟩
        · exact ih3 q b s d hmem
      · intro q b e2 hmem
        simp only [runInner, hf, if_true, hsy, List.mem_cons] at hmem
        rcases hmem with hmem | hmem
        · exact absurd hmem (by simp)
        · exact ih4 q b e2 hmem
      · simp only [runInner, hf, if_true, hsy, List.length_cons]
        simpa using ih5

/-- With the play flag held and clean-up succeeding, the page loop returns
normally with the same accounting as the block loop, across all pages. -/
theorem runPages_flag_true (env : Env) (hflag : ∀ k, env.playFlag k = true)
    (hclean : ∀ r, ∃ v, env.genResponse r = Except.ok v) :
    ∀ (pages : List Page) (pIdx bIdx0 : ℕ) (st : LoopState),
      ∃ st2 evs, runPages env pages pIdx bIdx0 st = Except.ok (st2, evs) ∧
        st2.active = st.active ++ evs.filterMap startedHandle ∧
        (∀ q b s d, Event.started q b s d ∈ evs → ∃ r, env.synth q b = Except.ok r) ∧
        (∀ q b e, Event.skipped q b e ∈ evs → env.synth q b = Except.error e) ∧
        evs.length = expectedCount pages bIdx0 := by
  intro pages
  induction pages with
  | nil =>
    intro pIdx bIdx0 st
    exact ⟨_, [], rfl, by simp, by simp, by simp, rfl⟩
  | cons pg rest ih =>
    intro pIdx bIdx0 st
    have hres : ∃ blocks, pageBlocksResolved env pg = Except.ok blocks ∧
        blocks.length = effBlockCount pg := by
      unfold pageBlocksResolved effBlockCount
      by_cases hpe : pg.blocks.isEmpty
      · obtain ⟨v, hv⟩ := hclean pg.rawText
        simp only [hpe, if_true, hv]
        exact ⟨_, rfl, rfl⟩
      · simp [hpe]
    obtain ⟨blocks, hbl, hlen⟩ := hres
    obtain ⟨r1, r2, r3, r4, r5⟩ :=
      runInner_flag_true env pIdx hflag (blocks.drop bIdx0) bIdx0 st
    obtain ⟨st2, evs2, he, ha, hm3, hm4, hl⟩ :=
      ih (pIdx + 1) 0 (runInner env pIdx (blocks.drop bIdx0) bIdx0 st).1
    refine ⟨st2, (runInner env pIdx (blocks.drop bIdx0) bIdx0 st).2.1 ++ evs2,
      ?_, ?_, ?_, ?_, ?_⟩
    · simp only [runPages, hbl, r1, Bool.false_eq_true, if_false, he]
    · rw [ha, r2, List.filterMap_append, List.append_assoc]
    · intro q b s d hmem
      rcases List.mem_append.mp hmem with h | h
      · exact r3 q b s d h
      · exact hm3 q b s d h
    · intro q b e hmem
      rcases List.mem_append.mp hmem with h | h
      · exact r4 q b e h
      · exact hm4 q b e h
    · simp only [List.length_append, r5, List.length_drop, hlen, hl, expectedCount]

/-- Claim C5: with the play flag set and clean-up succeeding, `readLoop`
never throws; every block whose synthesis (or audio decode) fails is
logged as skipped and contributes no tracked handle, started events come
only from blocks whose synthesis succeeded, the tracked handles are
exactly the started segments, and the loop still visits every block of
every page. -/
theorem readLoop_block_failure_contained (env : Env) (pages : List Page)
    (st : LoopState) (hflag : ∀ k, env.playFlag k = true)
    (hclean : ∀ r, ∃ v, env.genResponse r = Except.ok v) :
    ∃ st2 evs,
      readLoop env pages st = Except.ok (st2, evs) ∧
      st2.active = st.active ++ evs.filterMap startedHandle ∧
      (∀ q b s d, Event.started q b s d ∈ evs → ∃ r, env.synth q b = Except.ok r) ∧
      (∀ q b e, Event.skipped q b e ∈ evs → env.synth q b = Except.error e) ∧
      evs.length = expectedCount (pages.drop st.cursorPage) st.cursorBlock :=
  runPages_flag_true env hflag hclean (pages.drop st.cursorPage)
    st.cursorPage st.cursorBlock st

/-- Witness for claim C5 at a one-page document whose first block's
synthesis fails and whose second block's synthesis succeeds. -/
theorem readLoop_block_failure_contained_witness :
    ∃ st2 evs,
      readLoop envSynthFail pagesSynthFail initSt = Except.ok (st2, evs) ∧
      st2.active = initSt.active ++ evs.filterMap startedHandle ∧
      (∀ q b s d, Event.started q b s d ∈ evs →
        ∃ r, envSynthFail.synth q b = Except.ok r) ∧
      (∀ q b e, Event.skipped q b e ∈ evs →
        envSynthFail.synth q b = Except.error e) ∧
      evs.length =
        expectedCount (pagesSynthFail.drop initSt.cursorPage) initSt.cursorBlock :=
  readLoop_block_failure_contained envSynthFail pagesSynthFail initSt
    (fun _ => rfl) (fun r => ⟨some r, rfl⟩)

/-- Claim C6 evaluated on the code: in a run where the play flag is
cleared right after the first (and only) pre-synthesis check — a stop
issued while the first block's synthesis is in flight — the loop still
starts that block's audio (a started event is emitted and its handle
tracked), because no play-flag read separates the synthesis call from the
audio start.  This refutes the claim that the scheduler re-checks the
play state before starting playback of a synthesized segment. -/
theorem readLoop_starts_audio_after_stop_issued :
    readLoop envStopMidSynth pagesStopMidSynth initSt =
      Except.ok
        ({ nextStartTime := 2, active := [(0, 0)], checks := 1, schedIdx := 1,
           cursorPage := 0, cursorBlock := 0,
           currentText := "First block text", isPlaying := false },
          [Event.started 0 0 0 2]) ∧
    envStopMidSynth.playFlag 0 = true ∧
    (∀ k : ℕ, envStopMidSynth.playFlag (k + 1) = false) := by
  refine ⟨?_, rfl, fun k => rfl⟩
  norm_num [readLoop, runPages, runInner, pageBlocksResolved, schedule,
    envStopMidSynth, pagesStopMidSynth, initSt]

/-- Claim C7 evaluated on the code: when the clean-up call for a page
with unpopulated blocks throws, `readLoop` propagates the error — the run
aborts with the error and no fallback block is produced from the page's
raw text.  This refutes the claim that the scheduler degrades to the raw
clustered text as the sole block. -/
theorem readLoop_cleanup_error_aborts :
    readLoop envCleanupThrows pagesCleanupThrows initSt =
      Except.error "cleanup call failed" := by
  norm_num [readLoop, runPages, runInner, pageBlocksResolved,
    envCleanupThrows, pagesCleanupThrows, initSt]

end UltimateTTS
